import Mathlib

/-!
Verification development for the gobot orchestrator core
(`src/orchestrator.py`): circuit breaker, token-bucket rate limiter,
state manager, and the cycle engine.  Wall-clock instants are modelled
as rational numbers of seconds; `datetime.now()` becomes an explicit
`now : ℚ` argument at each observation point.
-/

namespace Gobot

/-! Section: CircuitBreaker (orchestrator.py, class CircuitBreaker) -/

/-- The three breaker states, as the string constants of the source. -/
inductive BreakerState
  | CLOSED
  | OPEN
  | HALF_OPEN
  deriving DecidableEq, Repr

/-- Fields of `CircuitBreaker.__init__`. -/
structure CircuitBreaker where
  failure_threshold : ℕ
  recovery_timeout : ℚ
  failure_count : ℕ
  last_failure_time : Option ℚ
  state : BreakerState
  deriving DecidableEq, Repr

/-- A fresh breaker: `CircuitBreaker(failure_threshold, recovery_timeout)`. -/
def CircuitBreaker.init (ft : ℕ) (rt : ℚ) : CircuitBreaker :=
  { failure_threshold := ft
    recovery_timeout := rt
    failure_count := 0
    last_failure_time := none
    state := .CLOSED }

/-- `CircuitBreaker._should_attempt_reset`: true when a failure was recorded
and at least `recovery_timeout` seconds have elapsed since it. -/
def CircuitBreaker.shouldAttemptReset (cb : CircuitBreaker) (now : ℚ) : Bool :=
  match cb.last_failure_time with
  | none => false
  | some t => decide (cb.recovery_timeout ≤ now - t)

/-- `CircuitBreaker._on_success`: reset the counter and close the breaker. -/
def CircuitBreaker.onSuccess (cb : CircuitBreaker) : CircuitBreaker :=
  { cb with failure_count := 0, state := .CLOSED }

/-- `CircuitBreaker._on_failure`: bump the counter, stamp the failure time,
and open the breaker once `failure_count >= failure_threshold` (the `if` of
the source is inlined on the already-incremented counter). -/
def CircuitBreaker.onFailure (cb : CircuitBreaker) (now : ℚ) : CircuitBreaker :=
  if cb.failure_threshold ≤ cb.failure_count + 1 then
    { cb with failure_count := cb.failure_count + 1, last_failure_time := some now,
              state := .OPEN }
  else
    { cb with failure_count := cb.failure_count + 1, last_failure_time := some now }

/-- The unit of work handed to `CircuitBreaker.call`: either a coroutine
function (which the breaker refuses to execute) or a synchronous function
that raises with a message (`sync (some msg)`) or returns (`sync none`). -/
inductive Work
  | async
  | sync (raises : Option String)
  deriving DecidableEq, Repr

/-- Whether executing this work would raise (drives `_on_failure`). -/
def Work.fails : Work → Bool
  | .async => true
  | .sync (some _) => true
  | .sync none => false

/-- What `CircuitBreaker.call` does, as seen by the caller. -/
inductive CallOutcome
  | breakerOpen
  | asyncRejected
  | workRaised (msg : String)
  | success
  deriving DecidableEq, Repr

/-- Whether the wrapped work body actually ran in this outcome. -/
def CallOutcome.workExecuted : CallOutcome → Bool
  | .success => true
  | .workRaised _ => true
  | _ => false

/-- The entry gate of `CircuitBreaker.call`: in state OPEN the call either
transitions to HALF_OPEN (when `_should_attempt_reset`) or is refused
(`none`) before the `try` block, i.e. before any bookkeeping. -/
def CircuitBreaker.gate (cb : CircuitBreaker) (now : ℚ) : Option CircuitBreaker :=
  match cb.state with
  | .OPEN =>
      if cb.shouldAttemptReset now then some { cb with state := .HALF_OPEN } else none
  | _ => some cb

/-- `CircuitBreaker.call`: gate, then either reject a coroutine function
(recorded as a failure), execute the work and record success, or record the
raised exception and re-raise it. -/
def CircuitBreaker.call (cb : CircuitBreaker) (now : ℚ) (work : Work) :
    CallOutcome × CircuitBreaker :=
  match cb.gate now with
  | none => (.breakerOpen, cb)
  | some cb1 =>
      match work with
      | .async => (.asyncRejected, cb1.onFailure now)
      | .sync none => (.success, cb1.onSuccess)
      | .sync (some msg) => (.workRaised msg, cb1.onFailure now)

/-- Iterate `call` over a list of call instants with a fixed work. -/
def CircuitBreaker.callN (cb : CircuitBreaker) (work : Work) : List ℚ → CircuitBreaker
  | [] => cb
  | t :: ts => ((cb.call t work).2).callN work ts

lemma CircuitBreaker.callN_append (cb : CircuitBreaker) (work : Work) (l1 l2 : List ℚ) :
    cb.callN work (l1 ++ l2) = (cb.callN work l1).callN work l2 := by
  induction l1 generalizing cb with
  | nil => rfl
  | cons t ts ih => simp [CircuitBreaker.callN, ih]

/-- While strictly below the threshold, consecutive failing calls keep the
breaker CLOSED and just count up. -/
lemma CircuitBreaker.callN_below_threshold (work : Work) (hw : work.fails = true) :
    ∀ (ts : List ℚ) (cb : CircuitBreaker),
      cb.state = .CLOSED →
      cb.failure_count + ts.length < cb.failure_threshold →
      (cb.callN work ts).state = .CLOSED
      ∧ (cb.callN work ts).failure_count = cb.failure_count + ts.length
      ∧ (cb.callN work ts).failure_threshold = cb.failure_threshold
      ∧ (cb.callN work ts).recovery_timeout = cb.recovery_timeout := by
  intro ts
  induction ts with
  | nil =>
      intro cb hst _
      simp [CircuitBreaker.callN, hst]
  | cons t ts ih =>
      intro cb hst hlt
      simp only [List.length_cons] at hlt
      have hgate : cb.gate t = some cb := by
        unfold CircuitBreaker.gate
        rw [hst]
      have hne : ¬ cb.failure_threshold ≤ cb.failure_count + 1 := by omega
      have hstep : (cb.call t work).2 =
          { cb with failure_count := cb.failure_count + 1, last_failure_time := some t } := by
        unfold CircuitBreaker.call
        rw [hgate]
        cases work with
        | async => simp [CircuitBreaker.onFailure, hne]
        | sync r =>
            cases r with
            | none => simp [Work.fails] at hw
            | some msg => simp [CircuitBreaker.onFailure, hne]
      have hres := ih
        { cb with failure_count := cb.failure_count + 1, last_failure_time := some t }
        hst (by simp only []; omega)
      simp only [CircuitBreaker.callN, hstep]
      refine ⟨hres.1, ?_, hres.2.2.1, hres.2.2.2⟩
      rw [hres.2.1]
      simp only [List.length_cons]
      omega

/-- Starting from a fresh breaker with threshold `k = |ts0| + 1`, a run of
`k` consecutive failing calls ends with the breaker OPEN, the counter at
`k`, and the last failure stamped at the final call instant. -/
lemma CircuitBreaker.callN_reaches_open (work : Work) (hw : work.fails = true)
    (k : ℕ) (rt : ℚ) (ts0 : List ℚ) (tk : ℚ) (hlen : ts0.length + 1 = k) :
    ((CircuitBreaker.init k rt).callN work (ts0 ++ [tk])).state = .OPEN
    ∧ ((CircuitBreaker.init k rt).callN work (ts0 ++ [tk])).failure_count = k
    ∧ ((CircuitBreaker.init k rt).callN work (ts0 ++ [tk])).last_failure_time = some tk
    ∧ ((CircuitBreaker.init k rt).callN work (ts0 ++ [tk])).failure_threshold = k
    ∧ ((CircuitBreaker.init k rt).callN work (ts0 ++ [tk])).recovery_timeout = rt := by
  have hpre := CircuitBreaker.callN_below_threshold work hw ts0 (CircuitBreaker.init k rt)
    rfl (by simp [CircuitBreaker.init]; omega)
  set cbk := (CircuitBreaker.init k rt).callN work ts0 with hcbk
  obtain ⟨hst, hcnt, hthr, hrec⟩ := hpre
  have hcnt' : cbk.failure_count = ts0.length := by
    simpa [CircuitBreaker.init] using hcnt
  have hthr' : cbk.failure_threshold = k := by
    simpa [CircuitBreaker.init] using hthr
  have hrec' : cbk.recovery_timeout = rt := by
    simpa [CircuitBreaker.init] using hrec
  rw [CircuitBreaker.callN_append, ← hcbk]
  have hpos : cbk.failure_threshold ≤ cbk.failure_count + 1 := by
    rw [hthr', hcnt']
    omega
  have hgate : cbk.gate tk = some cbk := by
    unfold CircuitBreaker.gate
    rw [hst]
  have hstep : (cbk.call tk work).2 =
      { cbk with failure_count := cbk.failure_count + 1, last_failure_time := some tk,
                 state := .OPEN } := by
    unfold CircuitBreaker.call
    rw [hgate]
    cases work with
    | async => simp [CircuitBreaker.onFailure, hpos]
    | sync r =>
        cases r with
        | none => simp [Work.fails] at hw
        | some msg => simp [CircuitBreaker.onFailure, hpos]
  have hfin : cbk.callN work [tk] =
      { cbk with failure_count := cbk.failure_count + 1, last_failure_time := some tk,
                 state := .OPEN } := by
    simp only [CircuitBreaker.callN, hstep]
  rw [hfin]
  refine ⟨rfl, ?_, rfl, hthr', hrec'⟩
  show cbk.failure_count + 1 = k
  rw [hcnt']
  exact hlen

lemma CircuitBreaker.shouldAttemptReset_eq (cb : CircuitBreaker) (l now : ℚ)
    (h : cb.last_failure_time = some l) :
    cb.shouldAttemptReset now = decide (cb.recovery_timeout ≤ now - l) := by
  unfold CircuitBreaker.shouldAttemptReset
  rw [h]

lemma CircuitBreaker.gate_open_none (cb : CircuitBreaker) (now : ℚ)
    (hst : cb.state = .OPEN) (hres : cb.shouldAttemptReset now = false) :
    cb.gate now = none := by
  unfold CircuitBreaker.gate
  rw [hst]
  simp [hres]

lemma CircuitBreaker.gate_open_reset (cb : CircuitBreaker) (now : ℚ)
    (hst : cb.state = .OPEN) (hres : cb.shouldAttemptReset now = true) :
    cb.gate now = some { cb with state := .HALF_OPEN } := by
  unfold CircuitBreaker.gate
  rw [hst]
  simp [hres]

/-- A fast-failed call leaves the breaker record untouched. -/
lemma CircuitBreaker.call_fastFail (cb : CircuitBreaker) (now : ℚ) (work : Work)
    (hst : cb.state = .OPEN) (hres : cb.shouldAttemptReset now = false) :
    cb.call now work = (.breakerOpen, cb) := by
  unfold CircuitBreaker.call
  rw [CircuitBreaker.gate_open_none cb now hst hres]

lemma CircuitBreaker.gate_preserves (cb cb1 : CircuitBreaker) (now : ℚ)
    (hg : cb.gate now = some cb1) :
    cb1.failure_threshold = cb.failure_threshold
    ∧ cb1.recovery_timeout = cb.recovery_timeout
    ∧ cb1.failure_count = cb.failure_count
    ∧ cb1.last_failure_time = cb.last_failure_time := by
  unfold CircuitBreaker.gate at hg
  split at hg
  · split at hg
    · obtain rfl := (Option.some.inj hg).symm
      exact ⟨rfl, rfl, rfl, rfl⟩
    · exact absurd hg (by simp)
  · obtain rfl := (Option.some.inj hg).symm
    exact ⟨rfl, rfl, rfl, rfl⟩

lemma CircuitBreaker.onFailure_fields (cb : CircuitBreaker) (now : ℚ) :
    (cb.onFailure now).failure_count = cb.failure_count + 1
    ∧ (cb.onFailure now).last_failure_time = some now
    ∧ (cb.onFailure now).recovery_timeout = cb.recovery_timeout := by
  unfold CircuitBreaker.onFailure
  split <;> exact ⟨rfl, rfl, rfl⟩

/-- C1: for every configured `failure_threshold` k (necessarily at least 1
for k failing calls to exist), starting from a fresh CLOSED breaker,
after exactly k consecutive calls whose wrapped work raises the state is
OPEN — and after any fewer than k it is not — and the (k+1)-th call, made
before the recovery timeout has elapsed since the last failure, returns
the breaker-open error immediately without executing the wrapped work. -/
theorem circuitBreaker_opens_after_k_failures
    (k : ℕ) (rt : ℚ) (msg : String) (ts0 : List ℚ) (tk now : ℚ)
    (hlen : ts0.length + 1 = k) (hnow : now - tk < rt) :
    ((CircuitBreaker.init k rt).callN (.sync (some msg)) (ts0 ++ [tk])).state = .OPEN
    ∧ (∀ j, j < k →
        ((CircuitBreaker.init k rt).callN (.sync (some msg)) ((ts0 ++ [tk]).take j)).state
          ≠ .OPEN)
    ∧ ((CircuitBreaker.init k rt).callN (.sync (some msg)) (ts0 ++ [tk])).call now
          (.sync (some msg))
        = (.breakerOpen, (CircuitBreaker.init k rt).callN (.sync (some msg)) (ts0 ++ [tk]))
    ∧ CallOutcome.breakerOpen.workExecuted = false := by
  obtain ⟨hst, hcnt, hlast, hthr, hrec⟩ :=
    CircuitBreaker.callN_reaches_open (.sync (some msg)) rfl k rt ts0 tk hlen
  refine ⟨hst, ?_, ?_, rfl⟩
  · intro j hj
    have hjle : j ≤ ts0.length := by omega
    rw [List.take_append_of_le_length hjle]
    have hlt : (CircuitBreaker.init k rt).failure_count + (ts0.take j).length
        < (CircuitBreaker.init k rt).failure_threshold := by
      simp [CircuitBreaker.init, List.length_take]
      omega
    have hcl := CircuitBreaker.callN_below_threshold (.sync (some msg)) rfl (ts0.take j)
      (CircuitBreaker.init k rt) rfl hlt
    rw [hcl.1]
    decide
  · have hsar : ((CircuitBreaker.init k rt).callN (.sync (some msg))
        (ts0 ++ [tk])).shouldAttemptReset now = false := by
      rw [CircuitBreaker.shouldAttemptReset_eq _ tk now hlast, hrec]
      simpa using not_le.mpr (by linarith : now - tk < rt)
    exact CircuitBreaker.call_fastFail _ now _ hst hsar

theorem circuitBreaker_opens_after_k_failures_witness :
    ((CircuitBreaker.init 2 10).callN (.sync (some "boom")) ([0] ++ [1])).state = .OPEN :=
  (circuitBreaker_opens_after_k_failures 2 10 "boom" [0] 1 2 (by decide) (by norm_num)).1

/-- C3: once the breaker is OPEN (its counter at or above the threshold, as
in every reachable OPEN state, and a failure instant recorded), a call
before `recovery_timeout` seconds have passed since the last failure fails
fast without executing the work; a call at or after that bound passes the
gate through HALF_OPEN as a trial; a successful trial yields CLOSED with
the counter reset to 0; a failing trial yields OPEN again with the failure
timer restarted at the trial instant. -/
theorem circuitBreaker_recovery_cycle (cb : CircuitBreaker) (l : ℚ)
    (hst : cb.state = .OPEN) (hl : cb.last_failure_time = some l)
    (hcnt : cb.failure_threshold ≤ cb.failure_count) :
    (∀ (now : ℚ) (work : Work), now - l < cb.recovery_timeout →
        cb.call now work = (.breakerOpen, cb)
        ∧ CallOutcome.breakerOpen.workExecuted = false)
    ∧ (∀ now : ℚ, cb.recovery_timeout ≤ now - l →
        cb.gate now = some { cb with state := .HALF_OPEN }
        ∧ (cb.call now (.sync none)).1 = .success
        ∧ CallOutcome.success.workExecuted = true
        ∧ (cb.call now (.sync none)).2.state = .CLOSED
        ∧ (cb.call now (.sync none)).2.failure_count = 0
        ∧ (∀ msg, (cb.call now (.sync (some msg))).2.state = .OPEN
            ∧ (cb.call now (.sync (some msg))).2.last_failure_time = some now)) := by
  constructor
  · intro now work hnow
    have hsar : cb.shouldAttemptReset now = false := by
      rw [CircuitBreaker.shouldAttemptReset_eq cb l now hl]
      simpa using not_le.mpr (by linarith : now - l < cb.recovery_timeout)
    exact ⟨CircuitBreaker.call_fastFail cb now work hst hsar, rfl⟩
  · intro now hnow
    have hsar : cb.shouldAttemptReset now = true := by
      rw [CircuitBreaker.shouldAttemptReset_eq cb l now hl]
      simpa using hnow
    have hgate := CircuitBreaker.gate_open_reset cb now hst hsar
    have hcallS : cb.call now (.sync none)
        = (.success, ({ cb with state := .HALF_OPEN }).onSuccess) := by
      unfold CircuitBreaker.call
      rw [hgate]
    have hcallF : ∀ msg, cb.call now (.sync (some msg))
        = (.workRaised msg, ({ cb with state := .HALF_OPEN }).onFailure now) := by
      intro msg
      unfold CircuitBreaker.call
      rw [hgate]
    have hopen : ({ cb with state := .HALF_OPEN }).onFailure now
        = { cb with state := .OPEN, failure_count := cb.failure_count + 1,
                     last_failure_time := some now } := by
      unfold CircuitBreaker.onFailure
      rw [if_pos (by show cb.failure_threshold ≤ cb.failure_count + 1; omega)]
    refine ⟨hgate, ?_, rfl, ?_, ?_, ?_⟩
    · rw [hcallS]
    · rw [hcallS]; rfl
    · rw [hcallS]; rfl
    · intro msg
      rw [hcallF msg, hopen]
      exact ⟨rfl, rfl⟩

theorem circuitBreaker_recovery_cycle_witness :
    ((⟨2, 10, 2, some 0, .OPEN⟩ : CircuitBreaker).call 3 (.sync (some "e"))
        = (.breakerOpen, (⟨2, 10, 2, some 0, .OPEN⟩ : CircuitBreaker)))
    ∧ ((⟨2, 10, 2, some 0, .OPEN⟩ : CircuitBreaker).call 12 (.sync none)).2.state = .CLOSED :=
  ⟨((circuitBreaker_recovery_cycle ⟨2, 10, 2, some 0, .OPEN⟩ 0 rfl rfl (by decide)).1
      3 (.sync (some "e")) (by norm_num)).1,
   ((circuitBreaker_recovery_cycle ⟨2, 10, 2, some 0, .OPEN⟩ 0 rfl rfl (by decide)).2
      12 (by norm_num)).2.2.2.1⟩

/-- C9: a fast-failed call while OPEN (recovery timeout not elapsed) leaves
the breaker's bookkeeping unchanged — failure_count and last_failure_time
keep their values, the work never runs — so fast-failed calls never extend
the recovery timer: eligibility for a HALF_OPEN trial at any instant `n`
is still exactly `recovery_timeout ≤ n - l` for the last real failure
instant `l`. -/
theorem circuitBreaker_fastFail_frame (cb : CircuitBreaker) (now : ℚ) (work : Work)
    (hst : cb.state = .OPEN) (hres : cb.shouldAttemptReset now = false) :
    cb.call now work = (.breakerOpen, cb)
    ∧ CallOutcome.breakerOpen.workExecuted = false
    ∧ (cb.call now work).2.failure_count = cb.failure_count
    ∧ (cb.call now work).2.last_failure_time = cb.last_failure_time
    ∧ (∀ l, cb.last_failure_time = some l →
        ∀ n : ℚ, ((cb.call now work).2).shouldAttemptReset n
          = decide (cb.recovery_timeout ≤ n - l)) := by
  have hcall := CircuitBreaker.call_fastFail cb now work hst hres
  refine ⟨hcall, rfl, by rw [hcall], by rw [hcall], ?_⟩
  intro l hl n
  rw [hcall]
  exact CircuitBreaker.shouldAttemptReset_eq cb l n hl

theorem circuitBreaker_fastFail_frame_witness :
    ((⟨2, 10, 2, some 0, .OPEN⟩ : CircuitBreaker).call 3 (.sync (some "e"))).2.failure_count
      = (⟨2, 10, 2, some 0, .OPEN⟩ : CircuitBreaker).failure_count :=
  (circuitBreaker_fastFail_frame ⟨2, 10, 2, some 0, .OPEN⟩ 3 (.sync (some "e"))
    rfl (by norm_num [CircuitBreaker.shouldAttemptReset])).2.2.1

/-- C10: when the gate admits the call, a coroutine-function work argument
is rejected with the RuntimeError without being executed, and the
rejection is recorded as a failure — the counter is incremented and the
failure time stamped — so k consecutive async-work calls alone drive a
fresh breaker with threshold k to OPEN. -/
theorem circuitBreaker_rejects_async (cb cb1 : CircuitBreaker) (now : ℚ)
    (hg : cb.gate now = some cb1)
    (k : ℕ) (rt : ℚ) (ts0 : List ℚ) (tk : ℚ) (hlen : ts0.length + 1 = k) :
    (cb.call now .async).1 = .asyncRejected
    ∧ CallOutcome.asyncRejected.workExecuted = false
    ∧ (cb.call now .async).2.failure_count = cb.failure_count + 1
    ∧ (cb.call now .async).2.last_failure_time = some now
    ∧ ((CircuitBreaker.init k rt).callN .async (ts0 ++ [tk])).state = .OPEN := by
  have hcall : cb.call now .async = (.asyncRejected, cb1.onFailure now) := by
    unfold CircuitBreaker.call
    rw [hg]
  obtain ⟨hf1, hf2, _⟩ := CircuitBreaker.onFailure_fields cb1 now
  obtain ⟨_, _, hp3, _⟩ := CircuitBreaker.gate_preserves cb cb1 now hg
  refine ⟨by rw [hcall], rfl, ?_, ?_, ?_⟩
  · rw [hcall]
    show (cb1.onFailure now).failure_count = cb.failure_count + 1
    rw [hf1, hp3]
  · rw [hcall]
    exact hf2
  · exact (CircuitBreaker.callN_reaches_open .async rfl k rt ts0 tk hlen).1

theorem circuitBreaker_rejects_async_witness :
    ((CircuitBreaker.init 1 10).call 0 .async).1 = .asyncRejected
    ∧ ((CircuitBreaker.init 1 10).callN .async ([] ++ [0])).state = .OPEN :=
  ⟨(circuitBreaker_rejects_async (CircuitBreaker.init 1 10) (CircuitBreaker.init 1 10)
      0 rfl 1 10 [] 0 rfl).1,
   (circuitBreaker_rejects_async (CircuitBreaker.init 1 10) (CircuitBreaker.init 1 10)
      0 rfl 1 10 [] 0 rfl).2.2.2.2⟩

/-! Section: RateLimiter (orchestrator.py, class RateLimiter)

`acquire` is a coroutine that observes the wall clock several times; the
embedding assumes zero elapsed time between the observation points of one
call except across the explicit sleeps, whose durations are known, so each
`acquire` takes the instant at which it starts and returns the instant at
which it finishes. -/

/-- Fields of `RateLimiter.__init__`. -/
structure RateLimiter where
  rpm_limit : ℚ
  rph_limit : ℚ
  minute_bucket : ℚ
  hour_bucket : ℚ
  last_refill : ℚ
  request_times : List ℚ
  deriving DecidableEq, Repr

/-- `RateLimiter(requests_per_minute, requests_per_hour)` at clock `now`. -/
def RateLimiter.init (rpm rph now : ℚ) : RateLimiter :=
  { rpm_limit := rpm
    rph_limit := rph
    minute_bucket := rpm
    hour_bucket := rph
    last_refill := now
    request_times := [] }

/-- `RateLimiter._refill_buckets`: proportional refill capped at the
configured limits, only when wall-clock time has passed. -/
def RateLimiter.refillBuckets (rl : RateLimiter) (now : ℚ) : RateLimiter :=
  if 0 < now - rl.last_refill then
    { rl with
      minute_bucket := min rl.rpm_limit
        (rl.minute_bucket + (now - rl.last_refill) / 60 * rl.rpm_limit)
      hour_bucket := min rl.rph_limit
        (rl.hour_bucket + (now - rl.last_refill) / 3600 * rl.rph_limit)
      last_refill := now }
  else rl

/-- `RateLimiter._clean_old_requests`: drop request stamps older than 1 hour. -/
def RateLimiter.cleanOldRequests (rl : RateLimiter) (now : ℚ) : RateLimiter :=
  { rl with request_times := rl.request_times.filter (fun t => now - 3600 < t) }

/-- The adaptive-backoff multiplier of `acquire`: 2.0 when the last 10
recorded requests span less than 60 seconds, otherwise 1.0. -/
def backoffMultiplier (request_times : List ℚ) : ℚ :=
  if 10 ≤ request_times.length then
    let recent := request_times.drop (request_times.length - 10)
    if (recent.getLast?.getD 0) - (recent.head?.getD 0) < 60 then 2 else 1
  else 1

/-- The wait-time computation of `acquire` after the initial refill:
`wait_time` starts at 0, is raised to the remainder of the minute window
when the minute bucket is below 1 token, then to the remainder of the hour
window when the hour bucket is below 1 token, then scaled by the backoff
multiplier. -/
def RateLimiter.waitTime (rl1 : RateLimiter) (now : ℚ) : ℚ :=
  let ew := now - rl1.last_refill
  let w1 := if rl1.minute_bucket < 1 then max 0 (60 - ew) else 0
  let w2 := if rl1.hour_bucket < 1 then max w1 (3600 - ew) else w1
  w2 * backoffMultiplier rl1.request_times

/-- The final token consumption of `acquire` at finish instant `t`. -/
def RateLimiter.consumeTokens (rl : RateLimiter) (t : ℚ) : RateLimiter :=
  { rl with
    minute_bucket := max 0 (rl.minute_bucket - 1)
    hour_bucket := max 0 (rl.hour_bucket - 1)
    request_times := rl.request_times ++ [t] }

/-- `RateLimiter.acquire` starting at instant `now`: refill and clean,
compute the wait, sleep it (refilling afterwards when it was positive),
sleep one more second when a bucket is still empty, then consume one token
from each bucket and record the request stamp.  Returns the computed wait
time, the finish instant and the new limiter state. -/
def RateLimiter.acquire (rl : RateLimiter) (now : ℚ) : ℚ × ℚ × RateLimiter :=
  let rl1 := (rl.refillBuckets now).cleanOldRequests now
  let wait := rl1.waitTime now
  let t2 := now + wait
  let rl2 := if 0 < wait then rl1.refillBuckets t2 else rl1
  let t3 := if rl2.minute_bucket < 1 ∨ rl2.hour_bucket < 1 then t2 + 1 else t2
  (wait, t3, rl2.consumeTokens t3)

/-- `n` back-to-back `acquire` calls: each call starts at the instant the
previous one finished.  Returns the wait time of the last call, the finish
instant, and the limiter state. -/
def RateLimiter.backToBack (rl : RateLimiter) (t : ℚ) : ℕ → ℚ × ℚ × RateLimiter
  | 0 => (0, t, rl)
  | n + 1 =>
      let s := rl.backToBack t n
      s.2.2.acquire s.2.1

lemma RateLimiter.refillBuckets_last_refill (rl : RateLimiter) (now : ℚ) :
    now - (rl.refillBuckets now).last_refill ≤ 0 := by
  unfold RateLimiter.refillBuckets
  split
  · simp
  · simp only [not_lt] at *
    linarith

lemma RateLimiter.cleanOldRequests_fields (rl : RateLimiter) (now : ℚ) :
    (rl.cleanOldRequests now).minute_bucket = rl.minute_bucket
    ∧ (rl.cleanOldRequests now).hour_bucket = rl.hour_bucket
    ∧ (rl.cleanOldRequests now).last_refill = rl.last_refill
    ∧ (rl.cleanOldRequests now).rpm_limit = rl.rpm_limit
    ∧ (rl.cleanOldRequests now).rph_limit = rl.rph_limit := by
  exact ⟨rfl, rfl, rfl, rfl, rfl⟩

/-- C5: whenever a bucket is below 1 token at the start of `acquire` (after
the lazy refill and history cleaning), the computed wait is at least the
remainder of that bucket's full window — window length minus the time
elapsed since the last refill — and when only the minute bucket is short
and no backoff applies, the wait equals exactly the remainder of the
minute window.  This is the full-window-refill wait of the spec, not the
shorter wait until a single token is available. -/
theorem rateLimiter_wait_until_window_refill (rl : RateLimiter) (now : ℚ)
    (hlen : ((rl.refillBuckets now).cleanOldRequests now).request_times.length < 10) :
    (((rl.refillBuckets now).cleanOldRequests now).minute_bucket < 1 →
        60 - (now - ((rl.refillBuckets now).cleanOldRequests now).last_refill)
          ≤ (rl.acquire now).1)
    ∧ (((rl.refillBuckets now).cleanOldRequests now).hour_bucket < 1 →
        3600 - (now - ((rl.refillBuckets now).cleanOldRequests now).last_refill)
          ≤ (rl.acquire now).1)
    ∧ (((rl.refillBuckets now).cleanOldRequests now).minute_bucket < 1 →
        1 ≤ ((rl.refillBuckets now).cleanOldRequests now).hour_bucket →
        (rl.acquire now).1
          = 60 - (now - ((rl.refillBuckets now).cleanOldRequests now).last_refill)) := by
  set rl1 := (rl.refillBuckets now).cleanOldRequests now with hrl1
  have hb : backoffMultiplier rl1.request_times = 1 := by
    unfold backoffMultiplier
    rw [if_neg (by omega)]
  have hew : now - rl1.last_refill ≤ 0 := by
    rw [hrl1, (RateLimiter.cleanOldRequests_fields _ now).2.2.1]
    exact RateLimiter.refillBuckets_last_refill rl now
  have hacq : (rl.acquire now).1 = rl1.waitTime now := by
    unfold RateLimiter.acquire
    rw [← hrl1]
  rw [hacq]
  unfold RateLimiter.waitTime
  rw [hb, mul_one]
  refine ⟨?_, ?_, ?_⟩
  · intro hmb
    rw [if_pos hmb]
    have h60 : (0:ℚ) ≤ 60 - (now - rl1.last_refill) := by linarith
    split
    · exact le_max_of_le_left (le_max_right _ _)
    · exact le_max_right _ _
  · intro hhb
    rw [if_pos hhb]
    exact le_max_right _ _
  · intro hmb hhb
    rw [if_pos hmb, if_neg (not_lt.mpr hhb), max_eq_right (by linarith)]

theorem rateLimiter_wait_until_window_refill_witness :
    ((RateLimiter.init 5 1000 0).backToBack 0 6).1 = 60 := by
  have hfive : (RateLimiter.init 5 1000 0).backToBack 0 5
      = (0, 0, ⟨5, 1000, 0, 995, 0, [0, 0, 0, 0, 0]⟩) := by
    norm_num [RateLimiter.backToBack, RateLimiter.acquire, RateLimiter.refillBuckets,
      RateLimiter.cleanOldRequests, RateLimiter.waitTime, RateLimiter.consumeTokens,
      backoffMultiplier, RateLimiter.init]
  have hsix : (RateLimiter.init 5 1000 0).backToBack 0 6
      = (⟨5, 1000, 0, 995, 0, [0, 0, 0, 0, 0]⟩ : RateLimiter).acquire 0 := by
    show ((RateLimiter.init 5 1000 0).backToBack 0 5).2.2.acquire
        ((RateLimiter.init 5 1000 0).backToBack 0 5).2.1 = _
    rw [hfive]
  have h := (rateLimiter_wait_until_window_refill
      ⟨5, 1000, 0, 995, 0, [0, 0, 0, 0, 0]⟩ 0
      (by norm_num [RateLimiter.refillBuckets, RateLimiter.cleanOldRequests])).2.2
    (by norm_num [RateLimiter.refillBuckets, RateLimiter.cleanOldRequests])
    (by norm_num [RateLimiter.refillBuckets, RateLimiter.cleanOldRequests])
  rw [hsix, h]
  norm_num [RateLimiter.refillBuckets, RateLimiter.cleanOldRequests]

/-- The bucket bounds: both buckets between 0 and their configured limit. -/
def RateLimiter.Inv (rl : RateLimiter) : Prop :=
  0 ≤ rl.minute_bucket ∧ rl.minute_bucket ≤ rl.rpm_limit
  ∧ 0 ≤ rl.hour_bucket ∧ rl.hour_bucket ≤ rl.rph_limit

/-- The operations a caller can perform on a RateLimiter. -/
inductive RLOp
  | refill (now : ℚ)
  | acq (now : ℚ)

def RateLimiter.applyOp (rl : RateLimiter) : RLOp → RateLimiter
  | .refill now => rl.refillBuckets now
  | .acq now => (rl.acquire now).2.2

def RateLimiter.applyOps (rl : RateLimiter) : List RLOp → RateLimiter
  | [] => rl
  | op :: ops => (rl.applyOp op).applyOps ops

lemma RateLimiter.refillBuckets_inv (rl : RateLimiter) (now : ℚ) (h : rl.Inv) :
    (rl.refillBuckets now).Inv := by
  obtain ⟨h1, h2, h3, h4⟩ := h
  have hrpm : (0:ℚ) ≤ rl.rpm_limit := le_trans h1 h2
  have hrph : (0:ℚ) ≤ rl.rph_limit := le_trans h3 h4
  unfold RateLimiter.refillBuckets
  split
  · rename_i he
    refine ⟨?_, min_le_left _ _, ?_, min_le_left _ _⟩
    · exact le_min hrpm
        (add_nonneg h1 (mul_nonneg (div_nonneg he.le (by norm_num)) hrpm))
    · exact le_min hrph
        (add_nonneg h3 (mul_nonneg (div_nonneg he.le (by norm_num)) hrph))
  · exact ⟨h1, h2, h3, h4⟩

lemma RateLimiter.cleanOldRequests_inv (rl : RateLimiter) (now : ℚ) (h : rl.Inv) :
    (rl.cleanOldRequests now).Inv := h

lemma RateLimiter.consumeTokens_inv (rl : RateLimiter) (t : ℚ) (h : rl.Inv) :
    (rl.consumeTokens t).Inv := by
  obtain ⟨h1, h2, h3, h4⟩ := h
  have hrpm : (0:ℚ) ≤ rl.rpm_limit := le_trans h1 h2
  have hrph : (0:ℚ) ≤ rl.rph_limit := le_trans h3 h4
  refine ⟨le_max_left _ _, ?_, le_max_left _ _, ?_⟩
  · show max 0 (rl.minute_bucket - 1) ≤ rl.rpm_limit
    exact max_le hrpm (by linarith)
  · show max 0 (rl.hour_bucket - 1) ≤ rl.rph_limit
    exact max_le hrph (by linarith)

lemma RateLimiter.acquire_inv (rl : RateLimiter) (now : ℚ) (h : rl.Inv) :
    ((rl.acquire now).2.2).Inv := by
  have ha : (((rl.refillBuckets now).cleanOldRequests now)).Inv :=
    RateLimiter.cleanOldRequests_inv _ now (RateLimiter.refillBuckets_inv rl now h)
  unfold RateLimiter.acquire
  dsimp only
  apply RateLimiter.consumeTokens_inv
  split
  · exact RateLimiter.refillBuckets_inv _ _ ha
  · exact ha

lemma RateLimiter.applyOps_inv (ops : List RLOp) :
    ∀ rl : RateLimiter, rl.Inv → (rl.applyOps ops).Inv := by
  induction ops with
  | nil => intro rl h; exact h
  | cons op ops ih =>
      intro rl h
      refine ih _ ?_
      cases op with
      | refill now => exact RateLimiter.refillBuckets_inv rl now h
      | acq now => exact RateLimiter.acquire_inv rl now h

/-- A refill step never reduces a bucket whose level respects the bounds. -/
lemma RateLimiter.refillBuckets_mono (rl : RateLimiter) (now : ℚ) (h : rl.Inv) :
    rl.minute_bucket ≤ (rl.refillBuckets now).minute_bucket
    ∧ rl.hour_bucket ≤ (rl.refillBuckets now).hour_bucket := by
  obtain ⟨h1, h2, h3, h4⟩ := h
  have hrpm : (0:ℚ) ≤ rl.rpm_limit := le_trans h1 h2
  have hrph : (0:ℚ) ≤ rl.rph_limit := le_trans h3 h4
  unfold RateLimiter.refillBuckets
  split
  · rename_i he
    constructor
    · exact le_min h2
        (le_add_of_nonneg_right (mul_nonneg (div_nonneg he.le (by norm_num)) hrpm))
    · exact le_min h4
        (le_add_of_nonneg_right (mul_nonneg (div_nonneg he.le (by norm_num)) hrph))
  · exact ⟨le_refl _, le_refl _⟩

/-- C8: for every sequence of acquire/refill operations starting from a
freshly constructed limiter with nonnegative configured limits, both token
buckets stay between 0 and their configured maximum; a refill step is
monotonically non-decreasing on bucket levels; and after any refill both
buckets are at most the configured maximum. -/
theorem rateLimiter_bucket_bounds (rpm rph t0 : ℚ)
    (h1 : 0 ≤ rpm) (h2 : 0 ≤ rph) :
    (∀ ops : List RLOp, ((RateLimiter.init rpm rph t0).applyOps ops).Inv)
    ∧ (∀ (rl : RateLimiter) (now : ℚ), rl.Inv →
        rl.minute_bucket ≤ (rl.refillBuckets now).minute_bucket
        ∧ rl.hour_bucket ≤ (rl.refillBuckets now).hour_bucket)
    ∧ (∀ (rl : RateLimiter) (now : ℚ), rl.Inv →
        (rl.refillBuckets now).minute_bucket ≤ rl.rpm_limit
        ∧ (rl.refillBuckets now).hour_bucket ≤ rl.rph_limit) := by
  have hinit : (RateLimiter.init rpm rph t0).Inv :=
    ⟨h1, le_refl _, h2, le_refl _⟩
  refine ⟨fun ops => RateLimiter.applyOps_inv ops _ hinit,
          fun rl now h => RateLimiter.refillBuckets_mono rl now h,
          fun rl now h => ?_⟩
  have hres := RateLimiter.refillBuckets_inv rl now h
  have hlim : (rl.refillBuckets now).rpm_limit = rl.rpm_limit
      ∧ (rl.refillBuckets now).rph_limit = rl.rph_limit := by
    unfold RateLimiter.refillBuckets
    split <;> exact ⟨rfl, rfl⟩
  exact ⟨hlim.1 ▸ hres.2.1, hlim.2 ▸ hres.2.2.2⟩

theorem rateLimiter_bucket_bounds_witness :
    ((RateLimiter.init 5 1000 0).applyOps [RLOp.acq 0, RLOp.refill 30]).Inv :=
  (rateLimiter_bucket_bounds 5 1000 0 (by norm_num) (by norm_num)).1
    [RLOp.acq 0, RLOp.refill 30]

/-! Section: Cycle data model (orchestrator.py, CyclePhase / CycleResult) -/

/-- The `CyclePhase` enum, in declaration order. -/
inductive CyclePhase
  | data_scan
  | idea
  | code_edit
  | backtest
  | report
  | complete
  deriving DecidableEq, Repr

/-- The `.value` string of each `CyclePhase` member. -/
def CyclePhase.value : CyclePhase → String
  | .data_scan => "data_scan"
  | .idea => "idea"
  | .code_edit => "code_edit"
  | .backtest => "backtest"
  | .report => "report"
  | .complete => "complete"

/-- Iteration order of `for phase in CyclePhase`. -/
def CyclePhase.all : List CyclePhase :=
  [.data_scan, .idea, .code_edit, .backtest, .report, .complete]

/-- The phases `_run_cycle` executes: every phase except the COMPLETE
sentinel, which the loop skips with `continue`. -/
def executionPhases : List CyclePhase :=
  CyclePhase.all.filter (fun p => p ≠ .complete)

/-- The `CycleResult` dataclass. -/
structure CycleResult where
  cycle_id : String
  duration_seconds : ℚ
  phases_completed : List CyclePhase
  success : Bool
  output : String
  learnings : List String
  deriving DecidableEq, Repr

/-! Section: StateManager (orchestrator.py, class StateManager)

The persistent store is modelled explicitly: each file is either absent,
corrupt (unparsable), or holds a parsed document. -/

/-- Contents of the branch marker file: unparsable, or a JSON object whose
`branch` key holds a string (`none` when the key is absent or null). -/
inductive BranchContent
  | corrupt
  | valid (branch : Option String)
  deriving DecidableEq, Repr

/-- The progress document: cycle list, pattern list, session start time. -/
structure PDoc where
  cycles : List CycleResult
  patterns : List String
  start_time : ℚ
  deriving DecidableEq, Repr

/-- Contents of the progress file. -/
inductive ProgressContent
  | corrupt
  | valid (doc : PDoc)
  deriving DecidableEq, Repr

/-- The state directory and archive directory, as StateManager sees them. -/
structure Store where
  branchFile : Option BranchContent
  progressFile : Option ProgressContent
  prdFile : Option String
  archive : List String
  deriving DecidableEq, Repr

/-- `StateManager.get_current_branch`: the recorded branch, or `None` when
the marker file is missing, unparsable, or lacks a branch value (every
parse failure is swallowed by the bare `except`). -/
def Store.get_current_branch (st : Store) : Option String :=
  match st.branchFile with
  | some (.valid (some b)) => some b
  | _ => none

/-- `StateManager.set_current_branch`: overwrite the marker. -/
def Store.set_current_branch (st : Store) (b : String) : Store :=
  { st with branchFile := some (.valid (some b)) }

/-- `StateManager.should_archive`: a branch value is recorded and differs
from the current branch. -/
def Store.should_archive (st : Store) (current_branch : String) : Bool :=
  match st.get_current_branch with
  | none => false
  | some last => last ≠ current_branch

/-- `StateManager.archive_current_state`: no-op unless `should_archive`;
otherwise create the dated, sanitized archive folder (receiving copies of
the progress and prd files) and record the new branch. -/
def Store.archive_current_state (st : Store) (current_branch : String)
    (date : String) : Store :=
  if st.should_archive current_branch then
    match st.get_current_branch with
    | some last =>
        ({ st with
           archive := st.archive ++ [date ++ "-" ++ (last.replace "/" "-")] }).set_current_branch
          current_branch
    | none => st
  else st

/-- The result of `json.loads(progress_file.read_text())`: missing and
unparsable files surface as the exceptions the bare `except` swallows. -/
def Store.readProgress (st : Store) : Except String PDoc :=
  match st.progressFile with
  | none => .error "FileNotFoundError"
  | some .corrupt => .error "JSONDecodeError"
  | some (.valid d) => .ok d

/-- The default empty-shaped progress document at clock `now`. -/
def defaultProgress (now : ℚ) : PDoc :=
  { cycles := [], patterns := [], start_time := now }

/-- `StateManager.load_progress`: the stored document, or the default
empty-shaped document when reading or parsing fails. -/
def Store.load_progress (st : Store) (now : ℚ) : PDoc :=
  match st.readProgress with
  | .ok d => d
  | .error _ => defaultProgress now

/-- C6: when the recorded branch already equals the new branch, or no
branch value is recorded, `archive_current_state` is a no-op — it creates
no archive folder and leaves the whole store (branch marker included)
unchanged; `should_archive` is true exactly when a branch value is
recorded that differs from the new branch; and a second
`archive_current_state` with the same branch is always a no-op. -/
theorem stateManager_archive_noop (st : Store) (b date : String)
    (h : st.get_current_branch = some b ∨ st.get_current_branch = none) :
    st.archive_current_state b date = st
    ∧ (∀ (s : Store) (nb : String),
        s.should_archive nb = true ↔ ∃ l, s.get_current_branch = some l ∧ l ≠ nb)
    ∧ (∀ (s : Store) (nb d1 d2 : String),
        (s.archive_current_state nb d1).archive_current_state nb d2
          = s.archive_current_state nb d1) := by
  have hiff : ∀ (s : Store) (nb : String),
      s.should_archive nb = true ↔ ∃ l, s.get_current_branch = some l ∧ l ≠ nb := by
    intro s nb
    unfold Store.should_archive
    cases hg : s.get_current_branch with
    | none => simp
    | some l => simp [hg]
  have hnoop : ∀ (s : Store) (nb date' : String),
      (s.get_current_branch = some nb ∨ s.get_current_branch = none) →
      s.archive_current_state nb date' = s := by
    intro s nb date' hs
    have hfalse : s.should_archive nb = false := by
      unfold Store.should_archive
      rcases hs with hs | hs <;> simp [hs]
    unfold Store.archive_current_state
    rw [hfalse]
    simp
  refine ⟨hnoop st b date h, hiff, ?_⟩
  intro s nb d1 d2
  by_cases hsa : s.should_archive nb = true
  · obtain ⟨l, hl, hlb⟩ := (hiff s nb).1 hsa
    have harch : s.archive_current_state nb d1
        = ({ s with archive := s.archive ++ [d1 ++ "-" ++ (l.replace "/" "-")]
           } : Store).set_current_branch nb := by
      unfold Store.archive_current_state
      rw [hsa, hl]
      simp
    have hget : (s.archive_current_state nb d1).get_current_branch = some nb := by
      rw [harch]
      rfl
    exact hnoop _ nb d2 (Or.inl hget)
  · have hs : s.should_archive nb = false := by
      cases hb : s.should_archive nb with
      | false => rfl
      | true => exact absurd hb hsa
    have heq : s.archive_current_state nb d1 = s := by
      unfold Store.archive_current_state
      rw [hs]
      simp
    rw [heq]
    unfold Store.archive_current_state
    rw [hs]
    simp

theorem stateManager_archive_noop_witness :
    ({ branchFile := some (.valid (some "main")), progressFile := none,
       prdFile := none, archive := [] } : Store).archive_current_state "main" "2026-10-12"
      = { branchFile := some (.valid (some "main")), progressFile := none,
          prdFile := none, archive := [] } :=
  (stateManager_archive_noop
    { branchFile := some (.valid (some "main")), progressFile := none,
      prdFile := none, archive := [] } "main" "2026-10-12" (Or.inl rfl)).1

/-- C7: `load_progress` is a total function of the store — no error
propagates — and whenever reading or parsing the progress document fails
(file missing or corrupt), it returns the default empty-shaped document:
empty cycle list, empty pattern list, and the current timestamp as the
session start. -/
theorem stateManager_load_progress_fallback (st : Store) (now : ℚ) (e : String)
    (h : st.readProgress = .error e) :
    st.load_progress now = defaultProgress now
    ∧ (st.load_progress now).cycles = []
    ∧ (st.load_progress now).patterns = []
    ∧ (st.load_progress now).start_time = now
    ∧ (∀ (s : Store) (t : ℚ),
        (∃ d, s.readProgress = .ok d ∧ s.load_progress t = d)
        ∨ s.load_progress t = defaultProgress t) := by
  have hload : st.load_progress now = defaultProgress now := by
    unfold Store.load_progress
    rw [h]
  refine ⟨hload, by rw [hload]; rfl, by rw [hload]; rfl, by rw [hload]; rfl, ?_⟩
  intro s t
  cases hr : s.readProgress with
  | ok d =>
      left
      refine ⟨d, rfl, ?_⟩
      unfold Store.load_progress
      rw [hr]
  | error msg =>
      right
      unfold Store.load_progress
      rw [hr]

theorem stateManager_load_progress_fallback_witness :
    ({ branchFile := none, progressFile := some .corrupt,
       prdFile := none, archive := [] } : Store).load_progress 7 = defaultProgress 7 :=
  (stateManager_load_progress_fallback
    { branchFile := none, progressFile := some .corrupt, prdFile := none, archive := [] }
    7 "JSONDecodeError" rfl).1

/-! Section: ClaudeOrchestrator (orchestrator.py, `_run_cycle` and `run`)

A phase handler is a function from the phase tag to either a result
payload (`.ok`) or a raised exception message (`.error`); the completion
predicate `_check_completion_signal` — the engine's pluggable extension
point — is abstracted as the boolean it returns for the cycle.  The
persisted progress is the cycle list the StateManager appends to. -/

/-- The phase loop of `_run_cycle`: execute the handlers in order,
accumulating results, stopping at the first raised exception, which
carries the phase that was current when it was raised. -/
def runPhasesAux (handlers : CyclePhase → Except String String) :
    List CyclePhase → List (CyclePhase × String) →
    Except (CyclePhase × String) (List (CyclePhase × String))
  | [], acc => .ok acc
  | p :: ps, acc =>
      match handlers p with
      | .ok out => runPhasesAux handlers ps (acc ++ [(p, out)])
      | .error e => .error (p, e)

def runPhases (handlers : CyclePhase → Except String String) :
    Except (CyclePhase × String) (List (CyclePhase × String)) :=
  runPhasesAux handlers executionPhases []

/-- `ClaudeOrchestrator._run_cycle`: run all phases; on success persist the
successful CycleResult and return the completion signal; on a raised
exception persist the failure CycleResult and return false.  Returns the
boolean result and the progress cycle list with the one appended record. -/
def runCycle (cycleNum : ℕ) (startT endT : ℚ)
    (handlers : CyclePhase → Except String String) (completion : Bool)
    (progress : List CycleResult) : Bool × List CycleResult :=
  let cycle_id := "cycle_" ++ toString cycleNum
  match runPhases handlers with
  | .ok _ =>
      let result : CycleResult :=
        { cycle_id := cycle_id
          duration_seconds := endT - startT
          phases_completed := CyclePhase.all.dropLast
          success := true
          output := "Cycle completed successfully"
          learnings := executionPhases.map
            (fun p => "Phase " ++ p.value ++ " executed successfully") }
      (completion, progress ++ [result])
  | .error (p, e) =>
      let result : CycleResult :=
        { cycle_id := cycle_id
          duration_seconds := 0
          phases_completed := []
          success := false
          output := "Cycle failed: " ++ e
          learnings := ["Error in " ++ p.value ++ ": " ++ e] }
      (false, progress ++ [result])

/-- The iteration loop of `ClaudeOrchestrator.run`: cycles `i` counted from
1, at most `fuel` more iterations; returns the boolean result, the number
of `_run_cycle` invocations made, and the final progress list.  The
inter-iteration sleep has no observable effect in this model. -/
def runAux (handlers : ℕ → CyclePhase → Except String String)
    (completion : ℕ → Bool) :
    ℕ → ℕ → ℕ → List CycleResult → Bool × ℕ × List CycleResult
  | _, 0, invoked, progress => (false, invoked, progress)
  | i, fuel + 1, invoked, progress =>
      let r := runCycle i 0 0 (handlers i) (completion i) progress
      if r.1 then (true, invoked + 1, r.2)
      else runAux handlers completion (i + 1) fuel (invoked + 1) r.2

/-- `ClaudeOrchestrator.run` for `max_iterations` iterations. -/
def ClaudeOrchestrator.run (handlers : ℕ → CyclePhase → Except String String)
    (completion : ℕ → Bool) (max_iterations : ℕ)
    (progress : List CycleResult) : Bool × ℕ × List CycleResult :=
  runAux handlers completion 1 max_iterations 0 progress

lemma runPhasesAux_error_mem (handlers : CyclePhase → Except String String) :
    ∀ (ps : List CyclePhase) (acc : List (CyclePhase × String)) (p : CyclePhase)
      (e : String),
      runPhasesAux handlers ps acc = .error (p, e) →
      handlers p = .error e ∧ p ∈ ps := by
  intro ps
  induction ps with
  | nil =>
      intro acc p e h
      exact absurd h (by simp [runPhasesAux])
  | cons q qs ih =>
      intro acc p e h
      unfold runPhasesAux at h
      cases hq : handlers q with
      | ok out =>
          rw [hq] at h
          obtain ⟨h1, h2⟩ := ih (acc ++ [(q, out)]) p e h
          exact ⟨h1, List.mem_cons_of_mem q h2⟩
      | error msg =>
          rw [hq] at h
          obtain ⟨rfl, rfl⟩ : q = p ∧ msg = e := by
            have := Except.error.inj h
            exact ⟨congrArg Prod.fst this, congrArg Prod.snd this⟩
          exact ⟨hq, List.mem_cons_self _ _⟩

/-- C2: whenever some phase handler raises — `runPhases` reports the
exception `(p, e)` raised while phase `p` was current — `_run_cycle`
returns false (the exception is a value, never propagated), and persists
exactly one CycleResult: success is false, the phases-completed list is
empty even if earlier phases succeeded, and the learnings are the single
error string naming the raising phase.  The raising phase is a genuine
execution phase whose handler raised `e`. -/
theorem runCycle_handler_raises (cycleNum : ℕ) (startT endT : ℚ)
    (handlers : CyclePhase → Except String String) (completion : Bool)
    (progress : List CycleResult) (p : CyclePhase) (e : String)
    (h : runPhases handlers = .error (p, e)) :
    (runCycle cycleNum startT endT handlers completion progress).1 = false
    ∧ (runCycle cycleNum startT endT handlers completion progress).2
        = progress ++
          [{ cycle_id := "cycle_" ++ toString cycleNum
             duration_seconds := 0
             phases_completed := []
             success := false
             output := "Cycle failed: " ++ e
             learnings := ["Error in " ++ p.value ++ ": " ++ e] }]
    ∧ (runCycle cycleNum startT endT handlers completion progress).2.length
        = progress.length + 1
    ∧ handlers p = .error e ∧ p ∈ executionPhases := by
  have hmem := runPhasesAux_error_mem handlers executionPhases [] p e h
  have hrc : runCycle cycleNum startT endT handlers completion progress
      = (false, progress ++
          [{ cycle_id := "cycle_" ++ toString cycleNum
             duration_seconds := 0
             phases_completed := []
             success := false
             output := "Cycle failed: " ++ e
             learnings := ["Error in " ++ p.value ++ ": " ++ e] }]) := by
    unfold runCycle
    rw [h]
  refine ⟨by rw [hrc], by rw [hrc], ?_, hmem.1, hmem.2⟩
  rw [hrc]
  simp

theorem runCycle_handler_raises_witness :
    (runCycle 1 0 0
      (fun p => if p = .code_edit then .error "boom" else .ok "done") false []).1 = false :=
  (runCycle_handler_raises 1 0 0
    (fun p => if p = .code_edit then .error "boom" else .ok "done") false []
    .code_edit "boom" rfl).1

/-- C4: with `max_iterations = 2` (and the inter-iteration sleep 0, which
is invisible in this model) and all phase handlers succeeding, a
completion predicate that is always false makes `run` return false after
exactly 2 invocations of `_run_cycle`, while a completion predicate that
returns true after the 1st cycle makes `run` return true after exactly 1
invocation. -/
theorem run_iteration_counts :
    ((ClaudeOrchestrator.run (fun _ _ => .ok "done") (fun _ => false) 2 []).1 = false
      ∧ (ClaudeOrchestrator.run (fun _ _ => .ok "done") (fun _ => false) 2 []).2.1 = 2)
    ∧ ((ClaudeOrchestrator.run (fun _ _ => .ok "done") (fun i => i == 1) 2 []).1 = true
      ∧ (ClaudeOrchestrator.run (fun _ _ => .ok "done") (fun i => i == 1) 2 []).2.1 = 1) := by
  refine ⟨⟨?_, ?_⟩, ?_, ?_⟩ <;> decide

end Gobot
